import Mathlib

/-!
Verification development for go-algorand's `util` elastic rate limiter
(`ElasticRateLimiter`, `capacityQueue`, `ErlCapacityGuard`) and its
RED (random early detection) congestion manager (`redCongestionManager`).

The Go source is embedded shallowly:

* Timestamps (`time.Time`) are integers (nanoseconds); `t.After(cutoff)`
  is strict `cutoff < t`.  Durations (`time.Duration`) are naturals in
  nanoseconds; `cm.window / time.Second` is natural-number division by
  `10^9`, exactly as Go integer division of positive values.
* The `float64` values flowing through the RED drop formula are modelled
  by `F`: exact rationals extended with `+Inf` and `NaN`, with the IEEE
  special-value rules for the operations that occur in the source
  (division by zero yields `+Inf` or `NaN`, `NaN` compares false,
  `pow(x, 0) = 1`).  Finite arithmetic is exact (no rounding).
  The exponent `exp` is modelled as a natural number; the source sets it
  to the integral constant 4.
* Go channels of `capacity{}` tokens are counters: a `capacityQueue` of
  capacity `cap` holding `len` buffered tokens is the natural `len`
  with `len ≤ cap`.  Token identity is irrelevant (`capacity` is an
  empty struct).
* Goroutines spawned by `openReservation` / `closeReservation` move
  tokens one at a time between queues.  The state machine below models
  each operation together with its background transfer at quiescence:
  an operation step is `none` when its blocking transfer cannot complete
  (the goroutine would hang), matching the claims, which are stated
  "after all background transfer tasks have quiesced".  A reservation
  queue that is closed while guards from it are outstanding keeps its
  draining goroutine alive until those guards are released; such guards
  are retagged `orphan`, and releasing one forwards the token to the
  shared queue (release into the unreferenced channel, then the drain
  goroutine's `blockingRelease` into `sharedCapacity`).
-/

namespace Erl

/-! ### A fragment of `float64`

Only the values and operations used by `redCongestionManager` are
modelled: nonnegative finite values (kept exact as rationals), `+Inf`,
and `NaN`. -/

/-- A `float64` value as used in the RED formulas: `NaN`, `+Inf`, or a
finite value represented exactly. -/
inductive F where
  | nan : F
  | inf : F
  | fin : ℚ → F
deriving DecidableEq, Repr

namespace F

/-- Conversion `float64(n)` of a natural (list length), exact. -/
def ofNat (n : ℕ) : F := fin n

/-- IEEE test `x == 0` (Go `clientArrivalRate == 0`): `NaN` and `+Inf`
compare unequal to zero. -/
def isZero : F → Bool
  | fin q => q == 0
  | _ => false

/-- IEEE division restricted to the nonnegative values that occur here:
`x/0` is `+Inf` for `x > 0` and `NaN` for `x = 0`; `NaN` propagates;
`Inf/Inf = NaN`; `finite/Inf = 0`. -/
def div : F → F → F
  | nan, _ => nan
  | _, nan => nan
  | inf, inf => nan
  | inf, fin _ => inf
  | fin _, inf => fin 0
  | fin a, fin b => if b = 0 then (if a = 0 then nan else inf) else fin (a / b)

/-- `float64(a) / float64(b)` for naturals `a`, `b` (the
`len(list) / (window / time.Second)` pattern in the source). -/
def divNat (a b : ℕ) : F :=
  if b = 0 then (if a = 0 then nan else inf) else fin ((a : ℚ) / (b : ℚ))

/-- `math.Pow(x, e)` for a natural exponent `e` (the source uses
`exp = 4`): `pow(x, 0) = 1` for every `x` including `NaN` and `Inf`;
otherwise `NaN` and `Inf` propagate and finite values are powered
exactly. -/
def powN : F → ℕ → F
  | _, 0 => fin 1
  | nan, _ + 1 => nan
  | inf, _ + 1 => inf
  | fin q, n + 1 => fin (q ^ (n + 1))

/-- IEEE comparison `x > r` against a finite `r` (the uniform draw):
`NaN > r` is false, `+Inf > r` is true. -/
def gtQ : F → ℚ → Bool
  | nan, _ => false
  | inf, _ => true
  | fin q, r => decide (r < q)

/-- The test `x > 0` on a `float64`, used to state hypotheses about a
positive client arrival rate. -/
def isPos : F → Bool
  | nan => false
  | inf => true
  | fin q => decide (0 < q)

end F

/-! ### `prune` -/

/-- The loop body of `prune`: scan for the first timestamp strictly
after `cutoff` and keep the list from there on; if none, the list
becomes empty.  (Go: `for i, t := range *ts { if t.After(cutoff) {
*ts = (*ts)[i:]; return len(*ts) } }; *ts = (*ts)[:0]`.) -/
def pruneList (ts : List ℤ) (cutoff : ℤ) : List ℤ :=
  match ts with
  | [] => []
  | t :: rest => if cutoff < t then t :: rest else pruneList rest cutoff

/-- `prune(ts *[]time.Time, cutoff)`: a nil pointer returns 0 and leaves
nothing to mutate; otherwise the pointed-to list is replaced by
`pruneList` and its new length returned. -/
def prune (ts : Option (List ℤ)) (cutoff : ℤ) : Option (List ℤ) × ℕ :=
  match ts with
  | none => (none, 0)
  | some l => (some (pruneList l cutoff), (pruneList l cutoff).length)

/-! ### Association lists

Go maps keyed by `ErlClient` are modelled as association lists with
natural-number client identifiers (clients are abstract, hashable and
equality-comparable).  `lookupC`, `updateC`, `removeC` act on the first
matching key; reachable states keep keys distinct. -/

/-- Map lookup. -/
def lookupC {β : Type} : List (ℕ × β) → ℕ → Option β
  | [], _ => none
  | (k, v) :: t, c => if k = c then some v else lookupC t c

/-- Map update of an existing key (first occurrence). -/
def updateC {β : Type} : List (ℕ × β) → ℕ → β → List (ℕ × β)
  | [], _, _ => []
  | (k, w) :: t, c, v => if k = c then (k, v) :: t else (k, w) :: updateC t c v

/-- Map deletion (first occurrence). -/
def removeC {β : Type} : List (ℕ × β) → ℕ → List (ℕ × β)
  | [], _ => []
  | (k, w) :: t, c => if k = c then t else (k, w) :: removeC t c

/-! ### RED congestion manager: drop decision -/

/-- `arrivalRateFor`: 0 for a nil list, else
`float64(len(*arrivals)) / float64(window / time.Second)`.
`window` is in nanoseconds. -/
def arrivalRateFor (window : ℕ) (arrivals : Option (List ℤ)) : F :=
  match arrivals with
  | none => F.fin 0
  | some l => F.divNat l.length (window / 1000000000)

/-- `redCongestionManager.shouldDrop`: clients whose arrival rate
compares equal to 0 are never dropped; otherwise the decision is
`pow(clientRate, exp) / pow(targetRate, exp) > r` where `r` is the
uniform draw from `[0,1)` (externalised as a parameter). -/
def shouldDrop (window : ℕ) (exp : ℕ) (targetRate : F)
    (arrivals : Option (List ℤ)) (r : ℚ) : Bool :=
  let clientArrivalRate := arrivalRateFor window arrivals
  if clientArrivalRate.isZero then false
  else F.gtQ (F.div (clientArrivalRate.powN exp) (targetRate.powN exp)) r

/-! ### RED congestion manager: the `run` loop

One iteration of the single-writer loop: process one event from the
select, bump the tick counter, and recompute the target rate when the
tick wraps to 0 or the loop is exiting.  `now` is the wall clock at the
iteration and `r` the uniform draw used by a `shouldDrop` answer. -/

/-- The mutable state owned by the `run` goroutine. -/
structure RedSt where
  tick : ℕ
  targetRate : F
  consumedByClient : List (ℕ × List ℤ)
  serves : List ℤ
deriving DecidableEq, Repr

/-- One arm of the select in `run`. -/
inductive RedEvent where
  | consumed (c : ℕ) (t : ℤ)
  | served (t : ℤ)
  | query (c : ℕ)
  | ctxDone
deriving DecidableEq, Repr

/-- Event processing: a `consumed` event appends to the client's list
(creating it when absent), a `served` event appends to `serves`, a
`shouldDrop` query prunes the queried client's list in place and
answers with `shouldDrop`, and context cancellation changes nothing
(the `exit` flag is read off the event by `runStep`). -/
def processEvent (window exp : ℕ) (st : RedSt) (ev : RedEvent)
    (now : ℤ) (r : ℚ) : RedSt × Option Bool :=
  match ev with
  | .consumed c t =>
      match lookupC st.consumedByClient c with
      | none => ({ st with consumedByClient := (c, [t]) :: st.consumedByClient }, none)
      | some l => ({ st with consumedByClient := updateC st.consumedByClient c (l ++ [t]) }, none)
  | .served t => ({ st with serves := st.serves ++ [t] }, none)
  | .query c =>
      let cutoff := now - (window : ℤ)
      let cbc :=
        match lookupC st.consumedByClient c with
        | none => st.consumedByClient
        | some l => updateC st.consumedByClient c (pruneList l cutoff)
      ({ st with consumedByClient := cbc },
       some (shouldDrop window exp st.targetRate (lookupC cbc c) r))
  | .ctxDone => (st, none)

/-- The periodic target-rate recomputation (the `tick == 0 || exit`
block of `run`): prune `serves`, prune every client's list deleting
clients whose list became empty, then set `targetRate` to 0, or to
`len(serves) / (window/time.Second) / len(consumedByClient)` when
clients remain. -/
def recompute (window : ℕ) (st : RedSt) (now : ℤ) : RedSt :=
  let cutoff := now - (window : ℤ)
  let serves := pruneList st.serves cutoff
  let cbc := st.consumedByClient.filterMap (fun p =>
    let l := pruneList p.2 cutoff
    if l.length = 0 then none else some (p.1, l))
  let targetRate :=
    if 0 < cbc.length then
      F.div (F.divNat serves.length (window / 1000000000)) (F.ofNat cbc.length)
    else F.fin 0
  { st with serves := serves, consumedByClient := cbc, targetRate := targetRate }

/-- One full iteration of `run`: process the event, advance
`tick = (tick + 1) % targetRateRefreshTicks`, and recompute the target
rate when the tick wrapped or the context was cancelled.  Returns the
new state and the answer when the event was a `shouldDrop` query. -/
def runStep (window ticks exp : ℕ) (st : RedSt) (ev : RedEvent)
    (now : ℤ) (r : ℚ) : RedSt × Option Bool :=
  let p := processEvent window exp st ev now r
  let tick := (p.1.tick + 1) % ticks
  let st1 := { p.1 with tick := tick }
  if tick = 0 ∨ ev = .ctxDone then (recompute window st1 now, p.2)
  else (st1, p.2)

/-! ### ElasticRateLimiter -/

/-- The queue a guard was taken from: the shared queue, the reservation
queue of a client currently in the map, or a closed reservation queue
whose drain goroutine is still alive (see `closeReservation`). -/
inductive GOrigin where
  | shr : GOrigin
  | res (c : ℕ) : GOrigin
  | orphan : GOrigin
deriving DecidableEq, Repr

/-- Sum of the buffered token counts of all reservation queues. -/
def sumV : List (ℕ × ℕ) → ℕ
  | [] => 0
  | (_, v) :: t => v + sumV t

/-- `ElasticRateLimiter` state at quiescence.  Queues are token
counters: `sharedCapacity ≤ maxCapacity` and each reservation value is
`≤ capacityPerReservation` in reachable states.  `guards` lists the
outstanding (taken, unreleased) `ErlCapacityGuard`s by origin. -/
structure ErlSt where
  maxCapacity : ℕ
  capacityPerReservation : ℕ
  sharedCapacity : ℕ
  capacityByClient : List (ℕ × ℕ)
  guards : List GOrigin
  hasCM : Bool
  enableCM : Bool
  noCapacityCounter : ℕ
  congestionControlCounter : ℕ
deriving DecidableEq, Repr

/-- `NewElasticRateLimiter`: empty reservation map and a shared queue
prefilled with `maxCapacity` tokens.  `hasCM` records whether a
congestion manager was passed; `enableCM` is the flag as later set by
`EnableCongestionControl` / `DisableCongestionControl`. -/
def initErl (maxCapacity reservedCapacity : ℕ) (hasCM enableCM : Bool) : ErlSt :=
  { maxCapacity := maxCapacity
    capacityPerReservation := reservedCapacity
    sharedCapacity := maxCapacity
    capacityByClient := []
    guards := []
    hasCM := hasCM
    enableCM := enableCM
    noCapacityCounter := 0
    congestionControlCounter := 0 }

/-- The synchronous part of `openReservation`: under the write lock,
fail (`none`) if the client already has a reservation or if
`CapacityPerReservation > MaxCapacity - CapacityPerReservation *
len(capacityByClient)` (the overprovisioning guard, computed in `int`
arithmetic); otherwise insert an empty queue of capacity
`CapacityPerReservation` for the client.  Both failures leave the state
unchanged (the caller keeps the old state). -/
def openReservation (st : ErlSt) (c : ℕ) : Option ErlSt :=
  if (lookupC st.capacityByClient c).isSome then none
  else if (st.capacityPerReservation : ℤ) >
      (st.maxCapacity : ℤ) - (st.capacityPerReservation : ℤ) * st.capacityByClient.length then
    none
  else some { st with capacityByClient := (c, 0) :: st.capacityByClient }

/-- The goroutine spawned by `openReservation`, at quiescence: it moves
`CapacityPerReservation` tokens from the shared queue into the new
reservation one at a time (`blockingConsume` then `blockingRelease`).
It quiesces only when the shared queue can supply them (`none`
otherwise: the goroutine is still blocked). -/
def openTransfer (st : ErlSt) (c : ℕ) : Option ErlSt :=
  if st.capacityPerReservation ≤ st.sharedCapacity then
    match lookupC st.capacityByClient c with
    | some k => some { st with
        sharedCapacity := st.sharedCapacity - st.capacityPerReservation,
        capacityByClient := updateC st.capacityByClient c (k + st.capacityPerReservation) }
    | none => none
  else none

/-- `closeReservation`, together with its drain goroutine at
quiescence: a client without a reservation is a no-op; otherwise the
map entry is removed and the goroutine returns the reservation's
tokens to the shared queue.  The goroutine drains
`CapacityPerReservation` tokens in total, so it stays alive until
guards still outstanding from the closed queue are released; those
guards are retagged `orphan`, and releasing one forwards its token to
the shared queue through the drain goroutine. -/
def closeReservation (st : ErlSt) (c : ℕ) : ErlSt :=
  match lookupC st.capacityByClient c with
  | none => st
  | some k =>
    { st with
      capacityByClient := removeC st.capacityByClient c,
      sharedCapacity := st.sharedCapacity + k,
      guards := st.guards.map (fun g => if g = .res c then .orphan else g) }

/-- `ErlCapacityGuard.Release` of an outstanding guard (`none` when the
guard is not outstanding: the release-once discipline).  The token goes
back to the originating queue by a non-blocking put; a full queue makes
`Release` return an error and keeps the token with the guard (state
unchanged).  An `orphan` guard's token reaches the shared queue through
the closed reservation's drain goroutine. -/
def releaseGuard (st : ErlSt) (g : GOrigin) : Option ErlSt :=
  if g ∈ st.guards then
    some (match g with
      | .shr =>
        if st.sharedCapacity < st.maxCapacity then
          { st with sharedCapacity := st.sharedCapacity + 1, guards := st.guards.erase .shr }
        else st
      | .res c =>
        match lookupC st.capacityByClient c with
        | some k =>
          if k < st.capacityPerReservation then
            { st with capacityByClient := updateC st.capacityByClient c (k + 1),
                      guards := st.guards.erase (.res c) }
          else st
        | none => st
      | .orphan =>
        { st with sharedCapacity := st.sharedCapacity + 1, guards := st.guards.erase .orphan })
  else none

/-- The result of `ConsumeCapacity`. -/
inductive ConsumeResult where
  | guard (g : GOrigin)
  | errOpenReservation
  | errCongestion
  | errNoCapacity
deriving DecidableEq, Repr

/-- A notification sent to the congestion manager during
`ConsumeCapacity` (`erl.cm.Consumed(c, time.Now())`). -/
inductive CmEvent where
  | consumedEv (c : ℕ)
deriving DecidableEq, Repr

/-- `ConsumeCapacity`, with its first-time blocking take at quiescence.
`dropAnswer` is the value `erl.cm.ShouldDrop(c)` would return.  Returns
the result, the new state, and the `Consumed` notifications sent; or
`none` when the first-time blocking take can never complete (the call
hangs).  Paths:
Step 0 (no reservation): `openReservation`; on error return it with no
event; else the fill goroutine runs, one token is taken blockingly from
the new reservation, and a guard on it is returned — with no event.
Step 1: non-blocking take from the reservation; on success notify
`Consumed` (when a manager is attached) and return the guard.
Step 2: when a manager is attached, the flag is enabled and
`ShouldDrop` says drop, bump `congestionControlCounter` and error.
Step 3: non-blocking take from the shared queue; on failure bump
`noCapacityCounter` and error; on success notify `Consumed` (when a
manager is attached) and return the guard. -/
def consumeCapacity (st : ErlSt) (c : ℕ) (dropAnswer : Bool) :
    Option (ConsumeResult × ErlSt × List CmEvent) :=
  match lookupC st.capacityByClient c with
  | none =>
    match openReservation st c with
    | none => some (.errOpenReservation, st, [])
    | some st1 =>
      match openTransfer st1 c with
      | none => none
      | some st2 =>
        match lookupC st2.capacityByClient c with
        | some (k + 1) =>
          some (.guard (.res c),
            { st2 with capacityByClient := updateC st2.capacityByClient c k,
                       guards := .res c :: st2.guards }, [])
        | _ => none
  | some k =>
    if 0 < k then
      some (.guard (.res c),
        { st with capacityByClient := updateC st.capacityByClient c (k - 1),
                  guards := .res c :: st.guards },
        if st.hasCM then [.consumedEv c] else [])
    else if st.hasCM && st.enableCM && dropAnswer then
      some (.errCongestion,
        { st with congestionControlCounter := st.congestionControlCounter + 1 }, [])
    else if 0 < st.sharedCapacity then
      some (.guard .shr,
        { st with sharedCapacity := st.sharedCapacity - 1, guards := .shr :: st.guards },
        if st.hasCM then [.consumedEv c] else [])
    else
      some (.errNoCapacity,
        { st with noCapacityCounter := st.noCapacityCounter + 1 }, [])

/-- An operation applied to the limiter. -/
inductive Op where
  | consume (c : ℕ) (dropAnswer : Bool)
  | release (g : GOrigin)
  | openRes (c : ℕ)
  | closeRes (c : ℕ)
deriving DecidableEq, Repr

/-- One operation at quiescence.  `none` means the operation can never
quiesce (a blocked goroutine) or is outside the model (double release). -/
def stepOp (st : ErlSt) : Op → Option ErlSt
  | .consume c d => (consumeCapacity st c d).map (fun r => r.2.1)
  | .release g => releaseGuard st g
  | .openRes c =>
    match openReservation st c with
    | none => some st
    | some st1 => openTransfer st1 c
  | .closeRes c => some (closeReservation st c)

/-- Run a sequence of operations from a state. -/
def runOps (st : ErlSt) : List Op → Option ErlSt
  | [] => some st
  | op :: rest =>
    match stepOp st op with
    | none => none
    | some st1 => runOps st1 rest

/-- Tokens in the shared queue, plus tokens in every reservation queue,
plus outstanding guards. -/
def tokenCount (st : ErlSt) : ℕ :=
  st.sharedCapacity + sumV st.capacityByClient + st.guards.length

/-! ### Association-list lemmas -/

theorem lookupC_cons_self {β : Type} (v : β) (l : List (ℕ × β)) (c : ℕ) :
    lookupC ((c, v) :: l) c = some v := by
  simp [lookupC]

theorem updateC_cons_self {β : Type} (w v : β) (l : List (ℕ × β)) (c : ℕ) :
    updateC ((c, w) :: l) c v = (c, v) :: l := by
  simp [updateC]

theorem length_updateC {β : Type} (l : List (ℕ × β)) (c : ℕ) (v : β) :
    (updateC l c v).length = l.length := by
  induction l with
  | nil => rfl
  | cons p t ih =>
    by_cases h : p.1 = c <;> simp [updateC, h, ih]

theorem sumV_updateC (l : List (ℕ × ℕ)) (c k v : ℕ) (h : lookupC l c = some k) :
    sumV (updateC l c v) + k = sumV l + v := by
  induction l with
  | nil => simp [lookupC] at h
  | cons p t ih =>
    obtain ⟨a, b⟩ := p
    by_cases hac : a = c
    · subst hac
      simp [lookupC] at h
      subst h
      simp [updateC, sumV]
      omega
    · simp [lookupC, hac] at h
      have := ih h
      simp [updateC, hac, sumV]
      omega

theorem lookupC_updateC {β : Type} (l : List (ℕ × β)) (c : ℕ) (v : β)
    (h : (lookupC l c).isSome) : lookupC (updateC l c v) c = some v := by
  induction l with
  | nil => simp [lookupC] at h
  | cons p t ih =>
    obtain ⟨a, b⟩ := p
    by_cases hac : a = c
    · subst hac
      simp [updateC, lookupC]
    · simp [lookupC, hac] at h
      simp [updateC, lookupC, hac, ih h]

theorem sumV_removeC (l : List (ℕ × ℕ)) (c k : ℕ) (h : lookupC l c = some k) :
    sumV (removeC l c) + k = sumV l := by
  induction l with
  | nil => simp [lookupC] at h
  | cons p t ih =>
    obtain ⟨a, b⟩ := p
    by_cases hac : a = c
    · subst hac
      simp [lookupC] at h
      subst h
      simp [removeC, sumV]
      omega
    · simp [lookupC, hac] at h
      have := ih h
      simp [removeC, hac, sumV]
      omega

theorem length_removeC {β : Type} (l : List (ℕ × β)) (c : ℕ)
    (h : (lookupC l c).isSome) : (removeC l c).length + 1 = l.length := by
  induction l with
  | nil => simp [lookupC] at h
  | cons p t ih =>
    obtain ⟨a, b⟩ := p
    by_cases hac : a = c
    · subst hac
      simp [removeC]
    · simp [lookupC, hac] at h
      simp [removeC, hac]
      exact ih h

/-! ### Path equations for `ConsumeCapacity` -/

theorem consumeCapacity_open_fail (st : ErlSt) (c : ℕ) (d : Bool)
    (hl : lookupC st.capacityByClient c = none)
    (hcheck : (st.capacityPerReservation : ℤ) >
      (st.maxCapacity : ℤ) - (st.capacityPerReservation : ℤ) * st.capacityByClient.length) :
    consumeCapacity st c d = some (.errOpenReservation, st, []) := by
  unfold consumeCapacity openReservation
  rw [hl]
  simp [hl, hcheck]

theorem consumeCapacity_first_time (st : ErlSt) (c : ℕ) (d : Bool) (k : ℕ)
    (hl : lookupC st.capacityByClient c = none)
    (hcheck : ¬((st.capacityPerReservation : ℤ) >
      (st.maxCapacity : ℤ) - (st.capacityPerReservation : ℤ) * st.capacityByClient.length))
    (hcpr : st.capacityPerReservation = k + 1)
    (hsh : st.capacityPerReservation ≤ st.sharedCapacity) :
    consumeCapacity st c d = some (.guard (.res c),
      { st with sharedCapacity := st.sharedCapacity - st.capacityPerReservation,
                capacityByClient := (c, k) :: st.capacityByClient,
                guards := .res c :: st.guards }, []) := by
  have hc2 : ¬((st.maxCapacity : ℤ) - ((k : ℤ) + 1) * (st.capacityByClient.length : ℤ) <
      (k : ℤ) + 1) := by
    rw [hcpr] at hcheck
    push_cast at hcheck
    exact hcheck
  unfold consumeCapacity openReservation openTransfer
  rw [hl]
  rw [hcpr] at hsh ⊢
  simp [hl, hc2, hsh, lookupC, updateC]

theorem consumeCapacity_reserved (st : ErlSt) (c : ℕ) (d : Bool) (k : ℕ)
    (hl : lookupC st.capacityByClient c = some k) (hk : 0 < k) :
    consumeCapacity st c d = some (.guard (.res c),
      { st with capacityByClient := updateC st.capacityByClient c (k - 1),
                guards := .res c :: st.guards },
      if st.hasCM then [.consumedEv c] else []) := by
  unfold consumeCapacity
  rw [hl]
  simp [hk]

theorem consumeCapacity_congestion (st : ErlSt) (c : ℕ) (d : Bool)
    (hl : lookupC st.capacityByClient c = some 0)
    (hgate : (st.hasCM && st.enableCM && d) = true) :
    consumeCapacity st c d = some (.errCongestion,
      { st with congestionControlCounter := st.congestionControlCounter + 1 }, []) := by
  unfold consumeCapacity
  rw [hl]
  simp [hgate]

theorem consumeCapacity_shared_take (st : ErlSt) (c : ℕ) (d : Bool)
    (hl : lookupC st.capacityByClient c = some 0)
    (hgate : (st.hasCM && st.enableCM && d) = false)
    (hsh : 0 < st.sharedCapacity) :
    consumeCapacity st c d = some (.guard .shr,
      { st with sharedCapacity := st.sharedCapacity - 1, guards := .shr :: st.guards },
      if st.hasCM then [.consumedEv c] else []) := by
  unfold consumeCapacity
  rw [hl]
  simp [hgate, hsh]

theorem consumeCapacity_no_capacity (st : ErlSt) (c : ℕ) (d : Bool)
    (hl : lookupC st.capacityByClient c = some 0)
    (hgate : (st.hasCM && st.enableCM && d) = false)
    (hsh : st.sharedCapacity = 0) :
    consumeCapacity st c d = some (.errNoCapacity,
      { st with noCapacityCounter := st.noCapacityCounter + 1 }, []) := by
  unfold consumeCapacity
  rw [hl]
  simp [hgate, hsh]

theorem consumeCapacity_stuck_transfer (st : ErlSt) (c : ℕ) (d : Bool)
    (hl : lookupC st.capacityByClient c = none)
    (hcheck : ¬((st.capacityPerReservation : ℤ) >
      (st.maxCapacity : ℤ) - (st.capacityPerReservation : ℤ) * st.capacityByClient.length))
    (hsh : ¬(st.capacityPerReservation ≤ st.sharedCapacity)) :
    consumeCapacity st c d = none := by
  unfold consumeCapacity openReservation openTransfer
  rw [hl]
  simp [hl, hcheck, hsh]

theorem consumeCapacity_stuck_zero (st : ErlSt) (c : ℕ) (d : Bool)
    (hl : lookupC st.capacityByClient c = none)
    (_hcheck : ¬((st.capacityPerReservation : ℤ) >
      (st.maxCapacity : ℤ) - (st.capacityPerReservation : ℤ) * st.capacityByClient.length))
    (hcpr : st.capacityPerReservation = 0) :
    consumeCapacity st c d = none := by
  unfold consumeCapacity openReservation openTransfer
  rw [hl]
  have hx : ¬((st.maxCapacity : ℤ) < 0) := by omega
  rw [hcpr]
  simp [hl, hx, lookupC, updateC]

/-! ### Step invariants -/

/-- What a completed operation preserves: the two configuration
constants, the total token count, and the overprovisioning bound. -/
def goodStep (st st1 : ErlSt) : Prop :=
  st1.maxCapacity = st.maxCapacity ∧
  st1.capacityPerReservation = st.capacityPerReservation ∧
  tokenCount st1 = tokenCount st ∧
  (st.capacityPerReservation * st.capacityByClient.length ≤ st.maxCapacity →
    st1.capacityPerReservation * st1.capacityByClient.length ≤ st1.maxCapacity)

theorem goodStep_refl (st : ErlSt) : goodStep st st := by
  refine ⟨rfl, rfl, rfl, fun h => h⟩

/-- Passing the overprovisioning check allows one more reservation. -/
theorem check_grows (maxCapacity cpr len : ℕ)
    (hcheck : ¬((cpr : ℤ) > (maxCapacity : ℤ) - (cpr : ℤ) * (len : ℤ))) :
    cpr * (len + 1) ≤ maxCapacity := by
  have hexp : (cpr : ℤ) * ((len : ℤ) + 1) = cpr * len + cpr := by ring
  have : (cpr : ℤ) * ((len : ℤ) + 1) ≤ (maxCapacity : ℤ) := by
    rw [hexp]
    omega
  exact_mod_cast this

theorem consumeCapacity_good (st : ErlSt) (c : ℕ) (d : Bool) (r : ConsumeResult)
    (st1 : ErlSt) (evs : List CmEvent)
    (h : consumeCapacity st c d = some (r, st1, evs)) : goodStep st st1 := by
  cases hl : lookupC st.capacityByClient c with
  | none =>
    by_cases hcheck : (st.capacityPerReservation : ℤ) >
        (st.maxCapacity : ℤ) - (st.capacityPerReservation : ℤ) * st.capacityByClient.length
    · rw [consumeCapacity_open_fail st c d hl hcheck] at h
      injection h with h1
      cases h1
      exact goodStep_refl st
    · by_cases hsh : st.capacityPerReservation ≤ st.sharedCapacity
      · cases hcpr : st.capacityPerReservation with
        | zero =>
          rw [consumeCapacity_stuck_zero st c d hl hcheck hcpr] at h
          cases h
        | succ k =>
          rw [consumeCapacity_first_time st c d k hl hcheck hcpr hsh] at h
          injection h with h1
          cases h1
          refine ⟨rfl, rfl, ?_, fun _ => ?_⟩
          · simp only [tokenCount, sumV, List.length_cons]
            rw [hcpr] at hsh ⊢
            omega
          · simp only [List.length_cons]
            exact check_grows st.maxCapacity st.capacityPerReservation
              st.capacityByClient.length hcheck
      · rw [consumeCapacity_stuck_transfer st c d hl hcheck hsh] at h
        cases h
  | some k =>
    by_cases hk : 0 < k
    · rw [consumeCapacity_reserved st c d k hl hk] at h
      injection h with h1
      cases h1
      refine ⟨rfl, rfl, ?_, fun hov => ?_⟩
      · have hs := sumV_updateC st.capacityByClient c k (k - 1) hl
        simp only [tokenCount, List.length_cons]
        omega
      · simpa only [length_updateC] using hov
    · have hk0 : k = 0 := by omega
      subst hk0
      cases hgate : st.hasCM && st.enableCM && d
      · by_cases hsh : 0 < st.sharedCapacity
        · rw [consumeCapacity_shared_take st c d hl hgate hsh] at h
          injection h with h1
          cases h1
          refine ⟨rfl, rfl, ?_, fun hov => hov⟩
          simp only [tokenCount, List.length_cons]
          omega
        · have hsh0 : st.sharedCapacity = 0 := by omega
          rw [consumeCapacity_no_capacity st c d hl hgate hsh0] at h
          injection h with h1
          cases h1
          exact ⟨rfl, rfl, rfl, fun hov => hov⟩
      · rw [consumeCapacity_congestion st c d hl hgate] at h
        injection h with h1
        cases h1
        exact ⟨rfl, rfl, rfl, fun hov => hov⟩

theorem releaseGuard_good (st : ErlSt) (g : GOrigin) (st1 : ErlSt)
    (h : releaseGuard st g = some st1) : goodStep st st1 := by
  unfold releaseGuard at h
  by_cases hmem : g ∈ st.guards
  · rw [if_pos hmem] at h
    have hlen : (st.guards.erase g).length = st.guards.length - 1 :=
      List.length_erase_of_mem hmem
    have hpos : 0 < st.guards.length := List.length_pos_of_mem hmem
    injection h with h1
    cases g with
    | shr =>
      dsimp only at h1
      by_cases hfull : st.sharedCapacity < st.maxCapacity
      · rw [if_pos hfull] at h1
        cases h1
        refine ⟨rfl, rfl, ?_, fun hov => hov⟩
        simp only [tokenCount]
        omega
      · rw [if_neg hfull] at h1
        cases h1
        exact goodStep_refl st
    | res c =>
      dsimp only at h1
      cases hres : lookupC st.capacityByClient c with
      | none =>
        rw [hres] at h1
        dsimp only at h1
        cases h1
        exact goodStep_refl st
      | some k =>
        rw [hres] at h1
        dsimp only at h1
        by_cases hk : k < st.capacityPerReservation
        · rw [if_pos hk] at h1
          cases h1
          refine ⟨rfl, rfl, ?_, fun hov => ?_⟩
          · have hs := sumV_updateC st.capacityByClient c k (k + 1) hres
            simp only [tokenCount]
            omega
          · simpa only [length_updateC] using hov
        · rw [if_neg hk] at h1
          cases h1
          exact goodStep_refl st
    | orphan =>
      dsimp only at h1
      cases h1
      refine ⟨rfl, rfl, ?_, fun hov => hov⟩
      simp only [tokenCount]
      omega
  · rw [if_neg hmem] at h
    cases h

theorem openReservation_some (st : ErlSt) (c : ℕ) (s1 : ErlSt)
    (h : openReservation st c = some s1) :
    lookupC st.capacityByClient c = none ∧
    ¬((st.capacityPerReservation : ℤ) >
      (st.maxCapacity : ℤ) - (st.capacityPerReservation : ℤ) * st.capacityByClient.length) ∧
    s1 = { st with capacityByClient := (c, 0) :: st.capacityByClient } := by
  unfold openReservation at h
  by_cases hex : (lookupC st.capacityByClient c).isSome
  · simp [hex] at h
  · by_cases hchk : (st.capacityPerReservation : ℤ) >
        (st.maxCapacity : ℤ) - (st.capacityPerReservation : ℤ) * st.capacityByClient.length
    · simp [hex, hchk] at h
    · simp [hex, hchk] at h
      exact ⟨Option.not_isSome_iff_eq_none.mp hex, hchk, h.symm⟩

theorem openRes_good (st : ErlSt) (c : ℕ) (st1 : ErlSt)
    (h : stepOp st (.openRes c) = some st1) : goodStep st st1 := by
  simp only [stepOp] at h
  cases hop : openReservation st c with
  | none =>
    rw [hop] at h
    dsimp only at h
    injection h with h1
    cases h1
    exact goodStep_refl st
  | some s1 =>
    rw [hop] at h
    dsimp only at h
    obtain ⟨hl, hchk, hs1⟩ := openReservation_some st c s1 hop
    subst hs1
    unfold openTransfer at h
    by_cases hsh : st.capacityPerReservation ≤ st.sharedCapacity
    · rw [if_pos hsh] at h
      rw [lookupC_cons_self] at h
      dsimp only at h
      rw [updateC_cons_self] at h
      injection h with h1
      cases h1
      refine ⟨rfl, rfl, ?_, fun _ => ?_⟩
      · simp only [tokenCount, sumV]
        omega
      · simp only [List.length_cons]
        exact check_grows st.maxCapacity st.capacityPerReservation
          st.capacityByClient.length hchk
    · rw [if_neg hsh] at h
      cases h

theorem closeRes_good (st : ErlSt) (c : ℕ) : goodStep st (closeReservation st c) := by
  unfold closeReservation
  cases hres : lookupC st.capacityByClient c with
  | none => exact goodStep_refl st
  | some k =>
    dsimp only
    refine ⟨rfl, rfl, ?_, fun hov => ?_⟩
    · have hs := sumV_removeC st.capacityByClient c k hres
      simp only [tokenCount, List.length_map]
      omega
    · have hlr := length_removeC st.capacityByClient c (by rw [hres]; rfl)
      have hmul : st.capacityPerReservation * (removeC st.capacityByClient c).length ≤
          st.capacityPerReservation * st.capacityByClient.length :=
        Nat.mul_le_mul_left _ (by omega)
      dsimp only
      omega

theorem stepOp_good (st : ErlSt) (op : Op) (st1 : ErlSt)
    (h : stepOp st op = some st1) : goodStep st st1 := by
  cases op with
  | consume c d =>
    simp only [stepOp] at h
    cases hc : consumeCapacity st c d with
    | none => rw [hc] at h; cases h
    | some trip =>
      obtain ⟨r, st2, evs⟩ := trip
      rw [hc] at h
      injection h with h1
      dsimp only at h1
      cases h1
      exact consumeCapacity_good st c d r st1 evs hc
  | release g => exact releaseGuard_good st g st1 h
  | openRes c => exact openRes_good st c st1 h
  | closeRes c =>
    simp only [stepOp] at h
    injection h with h1
    cases h1
    exact closeRes_good st c

theorem goodStep_trans (a b c : ErlSt) (h1 : goodStep a b) (h2 : goodStep b c) :
    goodStep a c := by
  obtain ⟨m1, c1, t1, o1⟩ := h1
  obtain ⟨m2, c2, t2, o2⟩ := h2
  exact ⟨m2.trans m1, c2.trans c1, t2.trans t1, fun h => o2 (o1 h)⟩

theorem runOps_good (ops : List Op) (st st1 : ErlSt)
    (h : runOps st ops = some st1) : goodStep st st1 := by
  induction ops generalizing st with
  | nil =>
    unfold runOps at h
    injection h with h1
    cases h1
    exact goodStep_refl _
  | cons op rest ih =>
    unfold runOps at h
    cases hs : stepOp st op with
    | none => rw [hs] at h; cases h
    | some st2 =>
      rw [hs] at h
      exact goodStep_trans st st2 st1 (stepOp_good st op st2 hs) (ih st2 h)

theorem removeC_lookup_none {β : Type} (l : List (ℕ × β)) (c : ℕ)
    (h : lookupC l c = none) : removeC l c = l := by
  induction l with
  | nil => rfl
  | cons p t ih =>
    obtain ⟨a, b⟩ := p
    by_cases hac : a = c
    · subst hac
      simp [lookupC] at h
    · simp [lookupC, hac] at h
      simp [removeC, hac, ih h]

end Erl

namespace Erl

/-! ### The claims -/

/-- C1: Token conservation: for every sequence of consume, release,
open_reservation and close_reservation operations starting from a
freshly constructed ElasticRateLimiter, after all background transfer
tasks have quiesced, the number of tokens in the shared queue plus the
sum of tokens in every reservation queue plus the number of outstanding
(unreleased) guards equals max_capacity. -/
theorem token_conservation (maxCapacity reservedCapacity : ℕ) (hasCM enableCM : Bool)
    (ops : List Op) (st : ErlSt)
    (h : runOps (initErl maxCapacity reservedCapacity hasCM enableCM) ops = some st) :
    st.sharedCapacity + sumV st.capacityByClient + st.guards.length = maxCapacity := by
  have ht := (runOps_good ops _ st h).2.2.1
  simp only [tokenCount, initErl, sumV, List.length_nil] at ht
  omega

theorem token_conservation_witness :
    runOps (initErl 4 2 true true) [Op.consume 0 false, Op.consume 0 true] =
      some { maxCapacity := 4, capacityPerReservation := 2, sharedCapacity := 2,
             capacityByClient := [(0, 0)], guards := [GOrigin.res 0, GOrigin.res 0],
             hasCM := true, enableCM := true, noCapacityCounter := 0,
             congestionControlCounter := 0 } ∧
    (2 : ℕ) + sumV [(0, 0)] + [GOrigin.res 0, GOrigin.res 0].length = 4 :=
  ⟨by decide,
    token_conservation 4 2 true true [Op.consume 0 false, Op.consume 0 true]
      { maxCapacity := 4, capacityPerReservation := 2, sharedCapacity := 2,
        capacityByClient := [(0, 0)], guards := [GOrigin.res 0, GOrigin.res 0],
        hasCM := true, enableCM := true, noCapacityCounter := 0,
        congestionControlCounter := 0 } (by decide)⟩

/-- C3: Overprovisioning bound: at every observable moment,
capacity_per_reservation multiplied by the number of entries in the
reservations map is at most max_capacity; openReservation fails with an
error (and adds no map entry) whenever capacity_per_reservation exceeds
max_capacity minus capacity_per_reservation times the current number of
reservations, and closeReservation only removes entries. -/
theorem overprovisioning_bound (maxCapacity reservedCapacity : ℕ) (hasCM enableCM : Bool)
    (ops : List Op) (st : ErlSt) (c : ℕ)
    (h : runOps (initErl maxCapacity reservedCapacity hasCM enableCM) ops = some st) :
    st.capacityPerReservation * st.capacityByClient.length ≤ st.maxCapacity ∧
    ((st.capacityPerReservation : ℤ) >
        (st.maxCapacity : ℤ) - (st.capacityPerReservation : ℤ) * st.capacityByClient.length →
      openReservation st c = none) ∧
    (closeReservation st c).capacityByClient = removeC st.capacityByClient c := by
  refine ⟨?_, fun hchk => ?_, ?_⟩
  · have hov := (runOps_good ops _ st h).2.2.2
    apply hov
    simp [initErl]
  · unfold openReservation
    by_cases hex : (lookupC st.capacityByClient c).isSome
    · simp [hex]
    · simp [hex, hchk]
  · unfold closeReservation
    cases hres : lookupC st.capacityByClient c with
    | none => exact (removeC_lookup_none st.capacityByClient c hres).symm
    | some k => rfl

theorem overprovisioning_bound_witness :
    runOps (initErl 4 3 false false) [Op.openRes 0] =
      some { maxCapacity := 4, capacityPerReservation := 3, sharedCapacity := 1,
             capacityByClient := [(0, 3)], guards := [], hasCM := false,
             enableCM := false, noCapacityCounter := 0, congestionControlCounter := 0 } ∧
    ((3 : ℕ) * 1 ≤ 4 ∧
      ((3 : ℤ) > (4 : ℤ) - (3 : ℤ) * 1 →
        openReservation { maxCapacity := 4, capacityPerReservation := 3, sharedCapacity := 1,
                          capacityByClient := [(0, 3)], guards := [], hasCM := false,
                          enableCM := false, noCapacityCounter := 0,
                          congestionControlCounter := 0 } 1 = none) ∧
      (closeReservation { maxCapacity := 4, capacityPerReservation := 3, sharedCapacity := 1,
                          capacityByClient := [(0, 3)], guards := [], hasCM := false,
                          enableCM := false, noCapacityCounter := 0,
                          congestionControlCounter := 0 } 1).capacityByClient =
        removeC [(0, 3)] 1) :=
  ⟨by decide,
    overprovisioning_bound 4 3 false false [Op.openRes 0]
      { maxCapacity := 4, capacityPerReservation := 3, sharedCapacity := 1,
        capacityByClient := [(0, 3)], guards := [], hasCM := false,
        enableCM := false, noCapacityCounter := 0,
        congestionControlCounter := 0 } 1 (by decide)⟩

/-- C8: Open/close round trip: for every freshly constructed limiter,
calling open_reservation for a client and then close_reservation for
the same client, with no intervening consume or release, restores the
shared queue to its initial token count (max_capacity) once both
background transfer tasks have completed, each task moving exactly
capacity_per_reservation tokens one at a time. -/
theorem open_close_round_trip (maxCapacity reservedCapacity c : ℕ) (hasCM enableCM : Bool) :
    (runOps (initErl maxCapacity reservedCapacity hasCM enableCM)
        [Op.openRes c, Op.closeRes c]).map ErlSt.sharedCapacity = some maxCapacity := by
  by_cases hcpr : reservedCapacity ≤ maxCapacity
  · have hx : ¬((maxCapacity : ℤ) < (reservedCapacity : ℤ)) := by omega
    have hop : openReservation (initErl maxCapacity reservedCapacity hasCM enableCM) c =
        some { initErl maxCapacity reservedCapacity hasCM enableCM with
               capacityByClient := [(c, 0)] } := by
      unfold openReservation initErl
      simp [lookupC, hx]
    have htr : openTransfer { initErl maxCapacity reservedCapacity hasCM enableCM with
        capacityByClient := [(c, 0)] } c =
        some { initErl maxCapacity reservedCapacity hasCM enableCM with
               sharedCapacity := maxCapacity - reservedCapacity,
               capacityByClient := [(c, reservedCapacity)] } := by
      unfold openTransfer initErl
      simp [lookupC, updateC, hcpr]
    simp only [runOps, stepOp]
    rw [hop]
    dsimp only
    rw [htr]
    dsimp only
    unfold closeReservation
    simp [lookupC, removeC, initErl]
    omega
  · have hx : (maxCapacity : ℤ) < (reservedCapacity : ℤ) := by omega
    have hop : openReservation (initErl maxCapacity reservedCapacity hasCM enableCM) c =
        none := by
      unfold openReservation initErl
      simp [lookupC, hx]
    simp only [runOps, stepOp]
    rw [hop]
    dsimp only
    unfold closeReservation
    simp [lookupC, initErl]

/-- C2: Reservation isolation: for every client that has an existing
reservation queue containing at least one token, and when no congestion
manager is attached, ConsumeCapacity on that client succeeds (returns a
guard and no error), regardless of the state of other clients'
reservations and of the shared queue. -/
theorem reservation_isolation (st : ErlSt) (c k : ℕ) (d : Bool)
    (hres : lookupC st.capacityByClient c = some k) (hk : 0 < k)
    (_hcm : st.hasCM = false) :
    (consumeCapacity st c d).map (fun r => r.1) =
      some (ConsumeResult.guard (GOrigin.res c)) := by
  rw [consumeCapacity_reserved st c d k hres hk]
  rfl

theorem reservation_isolation_witness :
    (consumeCapacity { maxCapacity := 4, capacityPerReservation := 2, sharedCapacity := 0,
                       capacityByClient := [(1, 0), (0, 2)], guards := [], hasCM := false,
                       enableCM := false, noCapacityCounter := 0,
                       congestionControlCounter := 0 } 0 true).map (fun r => r.1) =
      some (ConsumeResult.guard (GOrigin.res 0)) :=
  reservation_isolation
    { maxCapacity := 4, capacityPerReservation := 2, sharedCapacity := 0,
      capacityByClient := [(1, 0), (0, 2)], guards := [], hasCM := false,
      enableCM := false, noCapacityCounter := 0,
      congestionControlCounter := 0 } 0 2 true (by decide) (by decide) (by decide)

/-- C7: Shared-pool exhaustion error: for every client with an existing
but empty reservation queue, when the congestion gate does not drop and
the shared queue is also empty, ConsumeCapacity increments
no_capacity_counter and returns a NoCapacity error with no guard,
leaving every queue's token count unchanged; when the shared queue is
non-empty it returns a guard referencing the shared queue and notifies
the congestion manager with consumed(client, now). -/
theorem shared_pool_exhaustion (st : ErlSt) (c : ℕ) (d : Bool)
    (hres : lookupC st.capacityByClient c = some 0)
    (hgate : (st.hasCM && st.enableCM && d) = false) :
    (st.sharedCapacity = 0 →
      consumeCapacity st c d = some (.errNoCapacity,
        { st with noCapacityCounter := st.noCapacityCounter + 1 }, [])) ∧
    (0 < st.sharedCapacity →
      consumeCapacity st c d = some (.guard .shr,
        { st with sharedCapacity := st.sharedCapacity - 1, guards := .shr :: st.guards },
        if st.hasCM then [CmEvent.consumedEv c] else [])) :=
  ⟨fun h0 => consumeCapacity_no_capacity st c d hres hgate h0,
   fun hpos => consumeCapacity_shared_take st c d hres hgate hpos⟩

theorem shared_pool_exhaustion_witness :
    ((0 : ℕ) = 0 →
      consumeCapacity { maxCapacity := 4, capacityPerReservation := 2, sharedCapacity := 0,
                        capacityByClient := [(0, 0)], guards := [], hasCM := true,
                        enableCM := false, noCapacityCounter := 7,
                        congestionControlCounter := 0 } 0 true =
        some (.errNoCapacity,
          { maxCapacity := 4, capacityPerReservation := 2, sharedCapacity := 0,
            capacityByClient := [(0, 0)], guards := [], hasCM := true,
            enableCM := false, noCapacityCounter := 8,
            congestionControlCounter := 0 }, [])) ∧
    ((0 : ℕ) < 0 →
      consumeCapacity { maxCapacity := 4, capacityPerReservation := 2, sharedCapacity := 0,
                        capacityByClient := [(0, 0)], guards := [], hasCM := true,
                        enableCM := false, noCapacityCounter := 7,
                        congestionControlCounter := 0 } 0 true =
        some (.guard .shr,
          { maxCapacity := 4, capacityPerReservation := 2, sharedCapacity := 0 - 1,
            capacityByClient := [(0, 0)], guards := [.shr], hasCM := true,
            enableCM := false, noCapacityCounter := 7,
            congestionControlCounter := 0 },
          if true then [CmEvent.consumedEv 0] else [])) :=
  shared_pool_exhaustion
    { maxCapacity := 4, capacityPerReservation := 2, sharedCapacity := 0,
      capacityByClient := [(0, 0)], guards := [], hasCM := true,
      enableCM := false, noCapacityCounter := 7,
      congestionControlCounter := 0 } 0 true (by decide) (by decide)

/-- C10: Implicit: on the first-time admission path (client has no
existing reservation), a successful ConsumeCapacity opens the
reservation, blocks for one token, and returns a guard without ever
sending a consumed event to the congestion manager; the Consumed
notification is sent only on the later reserved-queue and shared-queue
take paths, so each client's very first admission is never counted in
the RED manager's per-client arrival lists. -/
theorem first_admission_uncounted (st : ErlSt) (c : ℕ) (d : Bool) :
    (lookupC st.capacityByClient c = none →
      ∀ r st1 evs, consumeCapacity st c d = some (r, st1, evs) →
        evs = [] ∧
        (r = ConsumeResult.errOpenReservation ∨
          (r = ConsumeResult.guard (GOrigin.res c) ∧
            lookupC st1.capacityByClient c = some (st.capacityPerReservation - 1)))) ∧
    (∀ k, lookupC st.capacityByClient c = some k →
      ∀ g st1 evs, consumeCapacity st c d = some (.guard g, st1, evs) →
        evs = if st.hasCM then [CmEvent.consumedEv c] else []) := by
  constructor
  · intro hl r st1 evs h
    by_cases hcheck : (st.capacityPerReservation : ℤ) >
        (st.maxCapacity : ℤ) - (st.capacityPerReservation : ℤ) * st.capacityByClient.length
    · rw [consumeCapacity_open_fail st c d hl hcheck] at h
      injection h with h1
      cases h1
      exact ⟨rfl, Or.inl rfl⟩
    · by_cases hsh : st.capacityPerReservation ≤ st.sharedCapacity
      · cases hcpr : st.capacityPerReservation with
        | zero =>
          rw [consumeCapacity_stuck_zero st c d hl hcheck hcpr] at h
          cases h
        | succ k =>
          rw [consumeCapacity_first_time st c d k hl hcheck hcpr hsh] at h
          injection h with h1
          cases h1
          refine ⟨rfl, Or.inr ⟨rfl, ?_⟩⟩
          rw [hcpr]
          simpa using lookupC_cons_self k st.capacityByClient c
      · rw [consumeCapacity_stuck_transfer st c d hl hcheck hsh] at h
        cases h
  · intro k hl g st1 evs h
    by_cases hk : 0 < k
    · rw [consumeCapacity_reserved st c d k hl hk] at h
      injection h with h1
      cases h1
      rfl
    · have hk0 : k = 0 := by omega
      subst hk0
      cases hgate : st.hasCM && st.enableCM && d
      · by_cases hsh : 0 < st.sharedCapacity
        · rw [consumeCapacity_shared_take st c d hl hgate hsh] at h
          injection h with h1
          cases h1
          rfl
        · have hsh0 : st.sharedCapacity = 0 := by omega
          rw [consumeCapacity_no_capacity st c d hl hgate hsh0] at h
          injection h with h1
          cases h1
      · rw [consumeCapacity_congestion st c d hl hgate] at h
        injection h with h1
        cases h1

theorem first_admission_uncounted_witness :
    lookupC ([] : List (ℕ × ℕ)) 5 = none ∧
    consumeCapacity (initErl 4 2 true true) 5 false =
      some (ConsumeResult.guard (GOrigin.res 5),
        { maxCapacity := 4, capacityPerReservation := 2, sharedCapacity := 2,
          capacityByClient := [(5, 1)], guards := [GOrigin.res 5], hasCM := true,
          enableCM := true, noCapacityCounter := 0, congestionControlCounter := 0 },
        []) ∧
    ([] : List CmEvent) = [] :=
  ⟨by decide, by decide,
    ((first_admission_uncounted (initErl 4 2 true true) 5 false).1 (by decide)
      (ConsumeResult.guard (GOrigin.res 5))
      { maxCapacity := 4, capacityPerReservation := 2, sharedCapacity := 2,
        capacityByClient := [(5, 1)], guards := [GOrigin.res 5], hasCM := true,
        enableCM := true, noCapacityCounter := 0, congestionControlCounter := 0 }
      [] (by decide)).1⟩

theorem F_powN_fin (q : ℚ) (e : ℕ) : (F.fin q).powN e = F.fin (q ^ e) := by
  cases e with
  | zero => simp [F.powN]
  | succ n => simp [F.powN]

theorem F_div_fin (a b : ℚ) (hb : b ≠ 0) : F.div (F.fin a) (F.fin b) = F.fin (a / b) := by
  simp [F.div, hb]

theorem pruneList_sorted (l : List ℤ) (cutoff : ℤ) (hmono : l.Sorted (· ≤ ·)) :
    pruneList l cutoff = l.filter (fun t => decide (cutoff < t)) := by
  induction l with
  | nil => rfl
  | cons t rest ih =>
    rw [List.sorted_cons] at hmono
    obtain ⟨hall, hrest⟩ := hmono
    by_cases hc : cutoff < t
    · have hfil : rest.filter (fun x => decide (cutoff < x)) = rest :=
        List.filter_eq_self.mpr (fun x hx => by
          have := hall x hx
          simp
          omega)
      simp [pruneList, hc, List.filter_cons, hfil]
    · simp [pruneList, hc, List.filter_cons, ih hrest]

/-- C9: Prune postcondition: for every list of timestamps appended in
monotonically non-decreasing order and every cutoff, prune(list,
cutoff) leaves the list equal to exactly its suffix of elements whose
timestamp is strictly after the cutoff, and returns the length of that
suffix; a nil list pointer yields 0. -/
theorem prune_postcondition (l : List ℤ) (cutoff : ℤ) (hmono : l.Sorted (· ≤ ·)) :
    prune (some l) cutoff =
      (some (l.filter (fun t => decide (cutoff < t))),
        (l.filter (fun t => decide (cutoff < t))).length) ∧
    prune none cutoff = (none, 0) := by
  refine ⟨?_, rfl⟩
  unfold prune
  dsimp only
  rw [pruneList_sorted l cutoff hmono]

theorem prune_postcondition_witness :
    ([(1 : ℤ), 3, 3, 7] : List ℤ).Sorted (· ≤ ·) ∧
    (prune (some [(1 : ℤ), 3, 3, 7]) 3 =
      (some (([(1 : ℤ), 3, 3, 7] : List ℤ).filter (fun t => decide ((3 : ℤ) < t))),
        (([(1 : ℤ), 3, 3, 7] : List ℤ).filter (fun t => decide ((3 : ℤ) < t))).length) ∧
      prune none 3 = ((none : Option (List ℤ)), 0)) :=
  ⟨by decide, prune_postcondition [(1 : ℤ), 3, 3, 7] 3 (by decide)⟩

/-- C4: Drop formula: for every client, shouldDrop returns false
whenever the client's pruned arrival list gives client_rate equal to 0
(including an absent/nil list); otherwise it draws r uniformly from
[0,1) and returns true exactly when client_rate raised to exp divided
by target_rate raised to exp is strictly greater than r. -/
theorem drop_formula (window exp : ℕ) (targetRate : F)
    (arrivals : Option (List ℤ)) (r : ℚ) :
    (arrivalRateFor window arrivals = F.fin 0 →
      shouldDrop window exp targetRate arrivals r = false) ∧
    ((arrivalRateFor window arrivals).isZero = false →
      shouldDrop window exp targetRate arrivals r =
        F.gtQ (F.div ((arrivalRateFor window arrivals).powN exp) (targetRate.powN exp)) r) ∧
    (∀ a t : ℚ, arrivalRateFor window arrivals = F.fin a → a ≠ 0 →
      targetRate = F.fin t → t ≠ 0 →
      (shouldDrop window exp targetRate arrivals r = true ↔ a ^ exp / t ^ exp > r)) := by
  refine ⟨fun h0 => ?_, fun hnz => ?_, fun a t ha ha0 ht ht0 => ?_⟩
  · unfold shouldDrop
    dsimp only
    rw [h0]
    simp [F.isZero]
  · unfold shouldDrop
    dsimp only
    rw [hnz]
    simp
  · unfold shouldDrop
    dsimp only
    rw [ha, ht]
    have hz : (F.fin a).isZero = false := by simp [F.isZero, ha0]
    rw [hz]
    simp only [Bool.false_eq_true, if_false]
    rw [F_powN_fin, F_powN_fin, F_div_fin (a ^ exp) (t ^ exp) (pow_ne_zero exp ht0)]
    simp [F.gtQ]

theorem drop_formula_witness :
    (arrivalRateFor 10000000000 (some [(5 : ℤ)]) = F.fin 0 →
      shouldDrop 10000000000 4 (F.fin 1) (some [(5 : ℤ)]) (1 / 2) = false) ∧
    ((arrivalRateFor 10000000000 (some [(5 : ℤ)])).isZero = false →
      shouldDrop 10000000000 4 (F.fin 1) (some [(5 : ℤ)]) (1 / 2) =
        F.gtQ (F.div ((arrivalRateFor 10000000000 (some [(5 : ℤ)])).powN 4)
          ((F.fin 1).powN 4)) (1 / 2)) ∧
    (∀ a t : ℚ, arrivalRateFor 10000000000 (some [(5 : ℤ)]) = F.fin a → a ≠ 0 →
      F.fin 1 = F.fin t → t ≠ 0 →
      (shouldDrop 10000000000 4 (F.fin 1) (some [(5 : ℤ)]) (1 / 2) = true ↔
        a ^ 4 / t ^ 4 > 1 / 2)) :=
  drop_formula 10000000000 4 (F.fin 1) (some [(5 : ℤ)]) (1 / 2)

/-- C5: Zero-target boundary: for every client whose pruned arrival
list yields client_rate strictly greater than 0, when target_rate
equals 0 the shouldDrop decision returns true (always drop), for every
value of the uniform draw r in [0,1). -/
theorem zero_target_always_drop (window exp : ℕ) (arrivals : Option (List ℤ)) (r : ℚ)
    (hpos : (arrivalRateFor window arrivals).isPos = true)
    (_hr0 : 0 ≤ r) (hr1 : r < 1) :
    shouldDrop window exp (F.fin 0) arrivals r = true := by
  unfold shouldDrop
  dsimp only
  cases hcar : arrivalRateFor window arrivals with
  | nan => rw [hcar] at hpos; simp [F.isPos] at hpos
  | inf =>
    simp only [F.isZero, Bool.false_eq_true, if_false]
    cases exp with
    | zero =>
      simp only [F.powN]
      rw [F_div_fin 1 1 one_ne_zero]
      simp [F.gtQ]
      linarith
    | succ e =>
      simp [F.powN, F.div, F.gtQ]
  | fin q =>
    have hq : 0 < q := by rw [hcar] at hpos; simpa [F.isPos] using hpos
    have hz : (F.fin q).isZero = false := by simp [F.isZero]; exact hq.ne'
    rw [hz]
    simp only [Bool.false_eq_true, if_false]
    cases exp with
    | zero =>
      simp only [F.powN]
      rw [F_div_fin 1 1 one_ne_zero]
      simp [F.gtQ]
      linarith
    | succ e =>
      rw [F_powN_fin, F_powN_fin]
      have hpow : q ^ (e + 1) ≠ 0 := pow_ne_zero (e + 1) hq.ne'
      have h0pow : (0 : ℚ) ^ (e + 1) = 0 := zero_pow (Nat.succ_ne_zero e)
      rw [h0pow]
      simp [F.div, hpow, F.gtQ]

theorem processEvent_tick (window exp : ℕ) (st : RedSt) (ev : RedEvent)
    (now : ℤ) (r : ℚ) :
    (processEvent window exp st ev now r).1.tick = st.tick := by
  cases ev with
  | consumed c t =>
    unfold processEvent
    dsimp only
    cases lookupC st.consumedByClient c <;> rfl
  | served t => rfl
  | query c => rfl
  | ctxDone => rfl

/-- C6: Target-rate recomputation: on every loop iteration where the
tick counter wraps to 0 (or the loop is exiting), after pruning the
serves list and every client's list to the window and deleting clients
whose list became empty, target_rate is set to 0 when no clients
remain, and otherwise to len(serves) divided by the window expressed in
seconds (integer division of the window by one second), divided by the
number of remaining clients. -/
theorem target_rate_recomputation (window ticks exp : ℕ) (st : RedSt) (ev : RedEvent)
    (now : ℤ) (r : ℚ)
    (h : (st.tick + 1) % ticks = 0 ∨ ev = RedEvent.ctxDone) :
    (runStep window ticks exp st ev now r).1.targetRate =
      (if ((processEvent window exp st ev now r).1.consumedByClient.filterMap (fun p =>
            if (pruneList p.2 (now - (window : ℤ))).length = 0 then none
            else some (p.1, pruneList p.2 (now - (window : ℤ))))).length = 0
       then F.fin 0
       else
         F.div
           (F.divNat
             (pruneList (processEvent window exp st ev now r).1.serves
               (now - (window : ℤ))).length
             (window / 1000000000))
           (F.ofNat
             ((processEvent window exp st ev now r).1.consumedByClient.filterMap (fun p =>
               if (pruneList p.2 (now - (window : ℤ))).length = 0 then none
               else some (p.1, pruneList p.2 (now - (window : ℤ))))).length)) := by
  unfold runStep
  dsimp only
  rw [processEvent_tick window exp st ev now r]
  rw [if_pos h]
  unfold recompute
  dsimp only
  by_cases hlen : ((processEvent window exp st ev now r).1.consumedByClient.filterMap (fun p =>
      if (pruneList p.2 (now - (window : ℤ))).length = 0 then none
      else some (p.1, pruneList p.2 (now - (window : ℤ))))).length = 0
  · rw [if_neg (by omega), if_pos hlen]
  · rw [if_pos (Nat.pos_of_ne_zero hlen), if_neg hlen]

theorem target_rate_recomputation_witness :
    ((0 + 1) % 1 = 0 ∨ RedEvent.served 6 = RedEvent.ctxDone) ∧
    (runStep 5 1 4 { tick := 0, targetRate := F.fin 0,
                     consumedByClient := [(0, [5])], serves := [3, 4] }
      (RedEvent.served 6) 7 0).1.targetRate = F.inf :=
  ⟨Or.inl (by decide),
    (target_rate_recomputation 5 1 4
      { tick := 0, targetRate := F.fin 0, consumedByClient := [(0, [5])], serves := [3, 4] }
      (RedEvent.served 6) 7 0 (Or.inl (by decide))).trans (by decide)⟩

theorem zero_target_always_drop_witness :
    (arrivalRateFor 5 (some [(5 : ℤ)])).isPos = true ∧
    (0 : ℚ) ≤ 0 ∧ (0 : ℚ) < 1 ∧
    shouldDrop 5 4 (F.fin 0) (some [(5 : ℤ)]) 0 = true :=
  ⟨by decide, le_refl 0, zero_lt_one,
    zero_target_always_drop 5 4 (some [(5 : ℤ)]) 0
      (by decide) (le_refl 0) zero_lt_one⟩

end Erl
